import Mathlib

/-!
# Verification of `transtab/dataset.py` (`load_data`)

Shallow embedding of the data-preparation pipeline in
`src/transtab/dataset.py` and proofs of the specification claims about it.

Conventions of the embedding:
* a table is a list of rows; a row of the training set is an
  `(index, label)` pair (features are irrelevant to the row/label claims);
* column names are `String` (role computation) or `Nat` (sharding);
* the sklearn `train_test_split` shuffle is abstracted as an arbitrary
  permutation `shuffled` of the rows: sklearn puts the first
  `ceil(0.2 * n)` elements of its shuffled order into the test set and the
  rest into the 80% split;
* Python float `int(n*0.1)` / `ceil(n*0.2)` are `n / 10` and `(n+4)/5` on `Nat`;
* numpy's global RNG draws (`np.random.shuffle`, `np.random.choice`) are
  abstracted as parameters (`shuffled` column order, `cands` candidate
  column draws);
* a Python crash (exception) is modelled by `Option`/`Except` `none`/`error`.
-/

set_option maxHeartbeats 1000000

namespace Transtab

/-- The val/train carve-out of `load_data` lines 120-124:
`val = train80.iloc[-val_size:]`, `train = train80.iloc[:-val_size]`.
Python slicing with `val_size = 0` gives `[-0:] = [0:]` (everything) and
`[:-0] = [:0]` (empty), hence the case split.  Returns `(train, val)`. -/
def iloc_tail_split {α : Type} (train80 : List α) (val_size : Nat) : List α × List α :=
  if val_size = 0 then ([], train80)
  else (train80.take (train80.length - val_size), train80.drop (train80.length - val_size))

/-- The full train/val/test row split of `load_data` lines 119-124, as a
function of the permutation `shuffled` of the rows produced by the seeded
stratified shuffle of `sklearn.train_test_split`.  sklearn sets
`n_test = ceil(0.2 * n)` (here `(n+4)/5`), takes the test rows from the
front of its shuffled order and the 80% split from the rest; then
`val_size = int(0.1 * n)` (here `n / 10`) rows are carved from the tail.
Returns `(train, val, test)`. -/
def split_train_val_test {α : Type} (shuffled : List α) : List α × List α × List α :=
  let n := shuffled.length
  let n_test := (n + 4) / 5
  let test_dataset := shuffled.take n_test
  let train80 := shuffled.drop n_test
  let val_size := n / 10
  let tv := iloc_tail_split train80 val_size
  (tv.1, tv.2, test_dataset)

lemma iloc_tail_split_append {α : Type} (train80 : List α) (v : Nat) :
    (iloc_tail_split train80 v).1 ++ (iloc_tail_split train80 v).2 = train80 := by
  unfold iloc_tail_split
  by_cases h : v = 0
  · simp [h]
  · simp [h, List.take_append_drop]

lemma split_train_val_test_perm {α : Type} (shuffled : List α) :
    ((split_train_val_test shuffled).1 ++ (split_train_val_test shuffled).2.1 ++
      (split_train_val_test shuffled).2.2).Perm shuffled := by
  unfold split_train_val_test
  simp only
  rw [iloc_tail_split_append]
  calc (shuffled.drop ((shuffled.length + 4) / 5) ++ shuffled.take ((shuffled.length + 4) / 5)).Perm
        (shuffled.take ((shuffled.length + 4) / 5) ++ shuffled.drop ((shuffled.length + 4) / 5)) :=
        List.perm_append_comm
    _ = shuffled := List.take_append_drop _ _

/-- C1: For every input dataset, the train, validation, and test partitions
returned by `load_data` are row-disjoint, their row sets are exhaustive over
the full table, and the sum of their lengths equals the length of the full
table.  `shuffled` is the permutation of the rows produced by the seeded
stratified shuffle inside `sklearn.train_test_split`. -/
theorem C1_split_partition {α : Type} [DecidableEq α] (rows shuffled : List α)
    (hperm : shuffled.Perm rows) :
    (split_train_val_test shuffled).1.length + (split_train_val_test shuffled).2.1.length +
        (split_train_val_test shuffled).2.2.length = rows.length ∧
    ((split_train_val_test shuffled).1 ++ (split_train_val_test shuffled).2.1 ++
        (split_train_val_test shuffled).2.2).Perm rows ∧
    (rows.Nodup →
      (split_train_val_test shuffled).1.Disjoint (split_train_val_test shuffled).2.1 ∧
      (split_train_val_test shuffled).1.Disjoint (split_train_val_test shuffled).2.2 ∧
      (split_train_val_test shuffled).2.1.Disjoint (split_train_val_test shuffled).2.2) := by
  have hp : ((split_train_val_test shuffled).1 ++ (split_train_val_test shuffled).2.1 ++
      (split_train_val_test shuffled).2.2).Perm rows :=
    (split_train_val_test_perm shuffled).trans hperm
  refine ⟨?_, hp, ?_⟩
  · have := hp.length_eq
    simpa [List.length_append, Nat.add_assoc] using this
  · intro hnd
    have hnd2 : ((split_train_val_test shuffled).1 ++ (split_train_val_test shuffled).2.1 ++
        (split_train_val_test shuffled).2.2).Nodup := hp.nodup_iff.mpr hnd
    rw [List.nodup_append] at hnd2
    obtain ⟨h12, _, hd3⟩ := hnd2
    rw [List.nodup_append] at h12
    rw [List.disjoint_append_left] at hd3
    exact ⟨h12.2.2, hd3.1, hd3.2⟩

/-- Witness for C1 at a concrete permutation of a concrete table. -/
theorem C1_split_partition_witness :
    (split_train_val_test [2, 0, 1]).1.length + (split_train_val_test [2, 0, 1]).2.1.length +
        (split_train_val_test [2, 0, 1]).2.2.length = [0, 1, 2].length ∧
    ((split_train_val_test [2, 0, 1]).1 ++ (split_train_val_test [2, 0, 1]).2.1 ++
        (split_train_val_test [2, 0, 1]).2.2).Perm [0, 1, 2] ∧
    (([0, 1, 2] : List Nat).Nodup →
      (split_train_val_test [2, 0, 1]).1.Disjoint (split_train_val_test [2, 0, 1]).2.1 ∧
      (split_train_val_test [2, 0, 1]).1.Disjoint (split_train_val_test [2, 0, 1]).2.2 ∧
      (split_train_val_test [2, 0, 1]).2.1.Disjoint (split_train_val_test [2, 0, 1]).2.2) :=
  C1_split_partition [0, 1, 2] [2, 0, 1] (by decide)

/-- C2 counterexample: on a 5-row dataset the validation partition has 4 rows,
not `floor(0.1 * 5) = 0`: Python `iloc[-0:]` returns the whole 80% split.
The shuffled order is immaterial: length is permutation-invariant. -/
theorem C2_val_size_counterexample :
    ¬ ((split_train_val_test [0, 1, 2, 3, 4]).2.1.length =
        ([0, 1, 2, 3, 4] : List Nat).length / 10) := by
  decide

/-- C2 (amended): for every dataset with `n ≥ 10` total rows, the validation
partition has exactly `floor(0.1 * n)` rows, and train/val are the
prefix/tail decomposition of the 80% split in its post-split row order.
(For `n < 10`, `val_size = 0` and Python slicing makes val the whole 80%
split and train empty.) -/
theorem C2_val_size (shuffled : List Nat) (h10 : 10 ≤ shuffled.length) :
    (split_train_val_test shuffled).2.1.length = shuffled.length / 10 ∧
    (split_train_val_test shuffled).1 ++ (split_train_val_test shuffled).2.1 =
      shuffled.drop ((shuffled.length + 4) / 5) ∧
    (split_train_val_test shuffled).1 =
      (shuffled.drop ((shuffled.length + 4) / 5)).take
        ((shuffled.drop ((shuffled.length + 4) / 5)).length - shuffled.length / 10) := by
  have hv : shuffled.length / 10 ≠ 0 := by omega
  have hlen : (shuffled.drop ((shuffled.length + 4) / 5)).length =
      shuffled.length - (shuffled.length + 4) / 5 := List.length_drop _ _
  have hle : shuffled.length / 10 ≤ shuffled.length - (shuffled.length + 4) / 5 := by omega
  unfold split_train_val_test iloc_tail_split
  simp only [hv, if_false, ite_false, List.length_drop]
  refine ⟨by omega, List.take_append_drop _ _, by trivial⟩

/-- Witness for C2 (amended) on a concrete 10-row table. -/
theorem C2_val_size_witness :
    (split_train_val_test [0, 1, 2, 3, 4, 5, 6, 7, 8, 9]).2.1.length =
        ([0, 1, 2, 3, 4, 5, 6, 7, 8, 9] : List Nat).length / 10 ∧
    (split_train_val_test [0, 1, 2, 3, 4, 5, 6, 7, 8, 9]).1 ++
        (split_train_val_test [0, 1, 2, 3, 4, 5, 6, 7, 8, 9]).2.1 =
      ([0, 1, 2, 3, 4, 5, 6, 7, 8, 9] : List Nat).drop
        ((([0, 1, 2, 3, 4, 5, 6, 7, 8, 9] : List Nat).length + 4) / 5) ∧
    (split_train_val_test [0, 1, 2, 3, 4, 5, 6, 7, 8, 9]).1 =
      (([0, 1, 2, 3, 4, 5, 6, 7, 8, 9] : List Nat).drop
          ((([0, 1, 2, 3, 4, 5, 6, 7, 8, 9] : List Nat).length + 4) / 5)).take
        ((([0, 1, 2, 3, 4, 5, 6, 7, 8, 9] : List Nat).drop
            ((([0, 1, 2, 3, 4, 5, 6, 7, 8, 9] : List Nat).length + 4) / 5)).length -
          ([0, 1, 2, 3, 4, 5, 6, 7, 8, 9] : List Nat).length / 10) :=
  C2_val_size [0, 1, 2, 3, 4, 5, 6, 7, 8, 9] (by decide)

/-- Python `str.lower()`: lowercase every character.  (Lean's own
`String.toLower` is definitionally opaque well-founded recursion, so the
same map is written over the character list.) -/
def str_lower (s : String) : String := String.mk (s.data.map Char.toLower)

/-- Lexicographic order on character lists by code point, as Python compares
strings. -/
def chars_le : List Char → List Char → Bool
  | [], _ => true
  | _ :: _, [] => false
  | a :: as, b :: bs => if a < b then true else if b < a then false else chars_le as bs

/-- Python string `<=` (lexicographic by code point). -/
def str_le (a b : String) : Bool := chars_le a.data b.data

/-- Least of two strings in the Python string order. -/
def str_min (a b : String) : String := if str_le a b then a else b

/-- Least element of a string list, `none` when empty (used by
`pandas_mode`: `Series.mode()` returns its result sorted ascending and `[0]`
picks the least; an empty mode series makes `[0]` raise, modelled `none`). -/
def list_least : List String → Option String
  | [] => none
  | x :: xs => some (xs.foldl str_min x)

/-- `Series.mode()[0]` of pandas: the most frequent value, ties broken by
taking the least (mode() returns the modes sorted ascending).  `none` models
the `KeyError` raised by `[0]` when the series has no non-null value. -/
def pandas_mode (l : List String) : Option String :=
  let maxc := l.foldr (fun v acc => max (l.count v) acc) 0
  list_least (l.filter (fun v => l.count v = maxc))

/-- `X[col].fillna(X[col].mode()[0])` on a column with missing values
(`none` = NaN): every NaN is replaced by the mode of the non-NaN values.
Returns `none` when `mode()[0]` raises (no non-NaN value in the column). -/
def fillna_mode (vals : List (Option String)) : Option (List String) :=
  match pandas_mode (vals.filterMap id) with
  | none => none
  | some m => some (vals.map (fun v => v.getD m))

/-- The binary-column encoding of `load_data` lines 106-114:
`applymap(lambda x: 1 if x.lower() in truth else 0)` over the stringified
column, where `truth` is the dataset config's `binary_indicator` set when
present and `['yes','true','1','t']` otherwise. -/
def encode_binary (truth : List String) (vals : List String) : List Nat :=
  vals.map (fun v => if truth.contains (str_lower v) then 1 else 0)

/-- Default truth-token set of `load_data` lines 110/112. -/
def default_truth_tokens : List String := ["yes", "true", "1", "t"]

/-- The binary-column selection of `load_data` lines 81-84 in external
(openml) mode.  `cfg = some e` models `dataname in dataset_config` with `e`
the entry's optional `bin` list; the result is `none` exactly when Python
raises `UnboundLocalError`: an entry without a `bin` field leaves `bin_cols`
unassigned and line 84 then reads it. -/
def bin_cols_ext (cfg : Option (Option (List String))) (cat_cols : List String) :
    Option (List String) :=
  match cfg with
  | some (some b) => some (cat_cols.filter (fun c => b.contains c))
  | some none => none
  | none => some []

/-- C5 counterexample: with the override `binary_indicator = ['y','n']` the
column `['y','n','y']` is NOT encoded to `[1,0,1]`: the override is the set
of truth tokens, and `'n'` is a member, so it maps to 1 as well. -/
theorem C5_override_counterexample :
    ¬ (encode_binary ["y", "n"] ["y", "n", "y"] = [1, 0, 1]) := by
  decide

/-- C5 (amended): with `binary_indicator = ['y','n']` the column
`['y','n','y']` encodes to `[1,1,1]` (every value is a truth token); the
encoding `[1,0,1]` of the scenario is obtained with the override
`binary_indicator = ['y']`. -/
theorem C5_override_encoding :
    encode_binary ["y", "n"] ["y", "n", "y"] = [1, 1, 1] ∧
    encode_binary ["y"] ["y", "n", "y"] = [1, 0, 1] := by
  constructor <;> decide

/-- C6: evaluation of the external-mode binary-column selection on its three
config shapes.  With a config entry whose `bin` field exists, the binary
columns are the categorical columns present in that list; with no config
entry, the list is empty; but a config entry WITHOUT a `bin` field makes
`load_data` raise `UnboundLocalError` (modelled by `none`) instead of
returning normally with an empty list as the claim states. -/
theorem C6_missing_bin_field :
    bin_cols_ext (some (some ["b", "z"])) ["a", "b"] = some ["b"] ∧
    bin_cols_ext none ["a", "b"] = some [] ∧
    bin_cols_ext (some none) ["a", "b"] = none := by
  refine ⟨by decide, rfl, rfl⟩

/-- C7: for every binary column, after mode-imputation every value is
stringified, lowercased and mapped to 1 iff it lies in the truth-token set
(default or user-supplied), so the encoded column has the same length as
the original (alignment preserved) and contains only values in `{0, 1}`
(the integer dtype is modelled by the `Nat` codomain of `encode_binary`). -/
theorem C7_binary_01 (truth : List String) (vals : List (Option String))
    (filled : List String) (h : fillna_mode vals = some filled) :
    (encode_binary truth filled).length = vals.length ∧
    (∀ x ∈ encode_binary truth filled, x = 0 ∨ x = 1) := by
  constructor
  · have hlen : filled.length = vals.length := by
      unfold fillna_mode at h
      cases hm : pandas_mode (vals.filterMap id) with
      | none => rw [hm] at h; exact absurd h (by simp)
      | some m =>
          rw [hm] at h
          have : vals.map (fun v => v.getD m) = filled := by
            simpa using h
          calc filled.length = (vals.map (fun v => v.getD m)).length := by rw [this]
            _ = vals.length := List.length_map _ _
    simpa [encode_binary] using hlen
  · intro x hx
    unfold encode_binary at hx
    obtain ⟨v, _, hv⟩ := List.mem_map.mp hx
    by_cases hc : truth.contains (str_lower v) = true
    · right; rw [← hv, if_pos hc]
    · left; rw [← hv, if_neg hc]

/-- Witness for C7: default truth tokens, a column with a NaN imputed by the
mode (ties broken by the least string). -/
theorem C7_binary_01_witness :
    (encode_binary default_truth_tokens ["Yes", "Yes", "no"]).length =
        ([some "Yes", none, some "no"] : List (Option String)).length ∧
    (∀ x ∈ encode_binary default_truth_tokens ["Yes", "Yes", "no"], x = 0 ∨ x = 1) :=
  C7_binary_01 default_truth_tokens [some "Yes", none, some "no"] ["Yes", "Yes", "no"]
    (by decide)

/-- `np.min` of a nonempty list (the `[]` case is never reached by
`load_data`: `len(num_cols) > 0` guards the scaling).  Values are `ℚ`: the
idealisation of the float column. -/
def list_min (l : List ℚ) : ℚ :=
  match l with
  | [] => 0
  | x :: xs => xs.foldl min x

/-- `np.max` of a nonempty list. -/
def list_max (l : List ℚ) : ℚ :=
  match l with
  | [] => 0
  | x :: xs => xs.foldl max x

/-- `MinMaxScaler().fit_transform` on one column (`load_data` line 94):
`(x - min) / (max - min)`, fit on the whole column; sklearn's
`_handle_zeros_in_scale` replaces a zero range by 1, so a constant column
maps to all zeros. -/
def min_max_scale (l : List ℚ) : List ℚ :=
  let mn := list_min l
  let mx := list_max l
  let d := if mx - mn = 0 then 1 else mx - mn
  l.map (fun x => (x - mn) / d)

lemma foldl_min_mem (xs : List ℚ) (a : ℚ) : xs.foldl min a = a ∨ xs.foldl min a ∈ xs := by
  induction xs generalizing a with
  | nil => exact Or.inl rfl
  | cons x xs ih =>
      rcases ih (min a x) with h | h
      · rcases min_choice a x with hm | hm
        · exact Or.inl (by rw [List.foldl_cons, h, hm])
        · exact Or.inr (by rw [List.foldl_cons, h, hm]; exact List.mem_cons_self _ _)
      · exact Or.inr (List.mem_cons_of_mem _ h)

lemma foldl_min_le (xs : List ℚ) (a : ℚ) :
    xs.foldl min a ≤ a ∧ ∀ x ∈ xs, xs.foldl min a ≤ x := by
  induction xs generalizing a with
  | nil => exact ⟨le_refl a, by intro x hx; cases hx⟩
  | cons x xs ih =>
      obtain ⟨h1, h2⟩ := ih (min a x)
      refine ⟨le_trans h1 (min_le_left _ _), ?_⟩
      intro y hy
      rcases List.mem_cons.mp hy with rfl | hy
      · exact le_trans h1 (min_le_right _ _)
      · exact h2 y hy

lemma foldl_max_mem (xs : List ℚ) (a : ℚ) : xs.foldl max a = a ∨ xs.foldl max a ∈ xs := by
  induction xs generalizing a with
  | nil => exact Or.inl rfl
  | cons x xs ih =>
      rcases ih (max a x) with h | h
      · rcases max_choice a x with hm | hm
        · exact Or.inl (by rw [List.foldl_cons, h, hm])
        · exact Or.inr (by rw [List.foldl_cons, h, hm]; exact List.mem_cons_self _ _)
      · exact Or.inr (List.mem_cons_of_mem _ h)

lemma foldl_le_max (xs : List ℚ) (a : ℚ) :
    a ≤ xs.foldl max a ∧ ∀ x ∈ xs, x ≤ xs.foldl max a := by
  induction xs generalizing a with
  | nil => exact ⟨le_refl a, by intro x hx; cases hx⟩
  | cons x xs ih =>
      obtain ⟨h1, h2⟩ := ih (max a x)
      refine ⟨le_trans (le_max_left _ _) h1, ?_⟩
      intro y hy
      rcases List.mem_cons.mp hy with rfl | hy
      · exact le_trans (le_max_right _ _) h1
      · exact h2 y hy

lemma list_min_mem {l : List ℚ} (h : l ≠ []) : list_min l ∈ l := by
  match l with
  | [] => exact absurd rfl h
  | x :: xs =>
      show xs.foldl min x ∈ x :: xs
      rcases foldl_min_mem xs x with h1 | h1
      · rw [h1]; exact List.mem_cons_self _ _
      · exact List.mem_cons_of_mem _ h1

lemma list_min_le {l : List ℚ} {x : ℚ} (hx : x ∈ l) : list_min l ≤ x := by
  match l with
  | [] => cases hx
  | y :: ys =>
      show ys.foldl min y ≤ x
      rcases List.mem_cons.mp hx with rfl | hx
      · exact (foldl_min_le ys x).1
      · exact (foldl_min_le ys y).2 x hx

lemma list_max_mem {l : List ℚ} (h : l ≠ []) : list_max l ∈ l := by
  match l with
  | [] => exact absurd rfl h
  | x :: xs =>
      show xs.foldl max x ∈ x :: xs
      rcases foldl_max_mem xs x with h1 | h1
      · rw [h1]; exact List.mem_cons_self _ _
      · exact List.mem_cons_of_mem _ h1

lemma le_list_max {l : List ℚ} {x : ℚ} (hx : x ∈ l) : x ≤ list_max l := by
  match l with
  | [] => cases hx
  | y :: ys =>
      show x ≤ ys.foldl max y
      rcases List.mem_cons.mp hx with rfl | hx
      · exact (foldl_le_max ys x).1
      · exact (foldl_le_max ys y).2 x hx

lemma split_parts_subset {α : Type} (L : List α) :
    (split_train_val_test L).1 ⊆ L ∧ (split_train_val_test L).2.1 ⊆ L ∧
      (split_train_val_test L).2.2 ⊆ L := by
  dsimp only [split_train_val_test, iloc_tail_split]
  split
  · exact ⟨List.nil_subset _, List.drop_subset _ _, List.take_subset _ _⟩
  · refine ⟨?_, ?_, List.take_subset _ _⟩
    · intro x hx
      exact List.drop_subset _ _ (List.take_subset _ _ hx)
    · intro x hx
      exact List.drop_subset _ _ (List.drop_subset _ _ hx)

/-- C8 counterexample: a constant numeric column (possible in local mode,
where no constant-column drop happens) scales to all zeros (sklearn replaces
the zero range by 1), so the column never attains the value 1. -/
theorem C8_constant_column_counterexample : (1 : ℚ) ∉ min_max_scale [5, 5] := by
  have h : min_max_scale [5, 5] = [0, 0] := by
    norm_num [min_max_scale, list_min, list_max]
  rw [h]
  norm_num

/-- C8 (amended): for every nonempty numeric column with at least two
distinct values, after min-max scaling (fit on the entire column before any
partitioning) every value lies in `[0,1]`, the value 0 and the value 1 are
each attained at least once, and every value of the train/val/test
partitions of the scaled column lies in `[0,1]`.  (A constant column instead
scales to all zeros and never attains 1.) -/
theorem C8_minmax_unit_interval (l : List ℚ) (h1 : l ≠ [])
    (h2 : ∃ a ∈ l, ∃ b ∈ l, a ≠ b) :
    (∀ x ∈ min_max_scale l, 0 ≤ x ∧ x ≤ 1) ∧
    (0 : ℚ) ∈ min_max_scale l ∧ (1 : ℚ) ∈ min_max_scale l ∧
    (∀ x ∈ (split_train_val_test (min_max_scale l)).1, 0 ≤ x ∧ x ≤ 1) ∧
    (∀ x ∈ (split_train_val_test (min_max_scale l)).2.1, 0 ≤ x ∧ x ≤ 1) ∧
    (∀ x ∈ (split_train_val_test (min_max_scale l)).2.2, 0 ≤ x ∧ x ≤ 1) := by
  obtain ⟨a, ha, b, hb, hab⟩ := h2
  have hlt : list_min l < list_max l := by
    rcases lt_or_gt_of_ne hab with h | h
    · exact lt_of_le_of_lt (list_min_le ha) (lt_of_lt_of_le h (le_list_max hb))
    · exact lt_of_le_of_lt (list_min_le hb) (lt_of_lt_of_le h (le_list_max ha))
  have hdne : list_max l - list_min l ≠ 0 := by
    intro h; exact absurd (by linarith : list_max l ≤ list_min l) (not_le.mpr hlt)
  have hdpos : 0 < list_max l - list_min l := by linarith
  have hbounds : ∀ x ∈ min_max_scale l, 0 ≤ x ∧ x ≤ 1 := by
    intro x hx
    unfold min_max_scale at hx
    simp only [if_neg hdne] at hx
    obtain ⟨y, hy, rfl⟩ := List.mem_map.mp hx
    constructor
    · exact div_nonneg (by linarith [list_min_le hy]) (le_of_lt hdpos)
    · rw [div_le_one hdpos]
      linarith [le_list_max hy]
  refine ⟨hbounds, ?_, ?_, ?_, ?_, ?_⟩
  · unfold min_max_scale
    simp only [if_neg hdne]
    exact List.mem_map.mpr ⟨list_min l, list_min_mem h1, by rw [sub_self, zero_div]⟩
  · unfold min_max_scale
    simp only [if_neg hdne]
    exact List.mem_map.mpr ⟨list_max l, list_max_mem h1, div_self hdne⟩
  · exact fun x hx => hbounds x ((split_parts_subset (min_max_scale l)).1 hx)
  · exact fun x hx => hbounds x ((split_parts_subset (min_max_scale l)).2.1 hx)
  · exact fun x hx => hbounds x ((split_parts_subset (min_max_scale l)).2.2 hx)

/-- Witness for C8 (amended) on the concrete column `[5, 7, 6]`. -/
theorem C8_minmax_unit_interval_witness :
    (∀ x ∈ min_max_scale [5, 7, 6], 0 ≤ x ∧ x ≤ 1) ∧
    (0 : ℚ) ∈ min_max_scale [5, 7, 6] ∧ (1 : ℚ) ∈ min_max_scale [5, 7, 6] ∧
    (∀ x ∈ (split_train_val_test (min_max_scale [5, 7, 6])).1, 0 ≤ x ∧ x ≤ 1) ∧
    (∀ x ∈ (split_train_val_test (min_max_scale [5, 7, 6])).2.1, 0 ≤ x ∧ x ≤ 1) ∧
    (∀ x ∈ (split_train_val_test (min_max_scale [5, 7, 6])).2.2, 0 ≤ x ∧ x ≤ 1) :=
  C8_minmax_unit_interval [5, 7, 6] (by simp)
    ⟨5, by norm_num, 7, by norm_num, by norm_num⟩

/-- `np.split(all_cols, range(0, len(all_cols), s))[1:]` (`load_data`
line 129): successive blocks of `s` columns, the final block holding the
remainder.  `fuel` bounds the recursion; at the call site it is the list
length, which suffices whenever `1 ≤ s` (each step strictly shrinks the
list).  Column names are modelled as `Nat`. -/
def chunksGo (s : Nat) : Nat → List Nat → List (List Nat)
  | 0, _ => []
  | _ + 1, [] => []
  | fuel + 1, l => l.take s :: chunksGo s fuel (l.drop s)

/-- The `col_splits` list of `load_data` line 129. -/
def col_splits (s : Nat) (cols : List Nat) : List (List Nat) :=
  chunksGo s cols.length cols

/-- `np.array_split(l, k)` (`load_data` line 141): `k` contiguous pieces of
near-equal size; numpy gives the first `len % k` pieces one extra element,
which equals this greedy ceiling division. -/
def array_split {α : Type} : Nat → List α → List (List α)
  | 0, _ => []
  | k + 1, l =>
      l.take ((l.length + k) / (k + 1)) :: array_split k (l.drop ((l.length + k) / (k + 1)))

/-- Insert into a sorted list (helper for `np_sort`). -/
def insort (x : Nat) : List Nat → List Nat
  | [] => [x]
  | y :: ys => if x ≤ y then x :: y :: ys else y :: insort x ys

/-- Ascending sort by insertion (models the sorting done by `np.unique`). -/
def np_sort (l : List Nat) : List Nat := l.foldr insort []

/-- `np.unique(l).tolist()` (`load_data` line 137): sorted distinct values.
-/
def np_unique (l : List Nat) : List Nat := (np_sort l).dedup

/-- The leftover-block redistribution of `load_data` lines 135-138: for each
index `i` below the length of the last block, append that block's `i`-th
element to `new_col_splits[i]` and deduplicate with `np.unique`; then drop
the final entry (`new_col_splits[:-1]`). -/
def redistribute (ncs : List (List Nat)) (lastB : List Nat) : List (List Nat) :=
  ((List.range ncs.length).map (fun i =>
    if i < lastB.length then np_unique (ncs.getD i [] ++ [lastB.getD i 0])
    else ncs.getD i [])).dropLast

/-- The final `new_col_splits` of `load_data` lines 130-138: each base block
extended by its drawn candidate columns (`cands` abstracts the
`np.random.choice` draws of line 132), with the leftover block redistributed
when `np.split` produced more than `data_cut` blocks. -/
def final_col_splits (shuffled : List Nat) (k : Nat) (cands : List (List Nat)) :
    List (List Nat) :=
  if k < (col_splits (shuffled.length / k) shuffled).length then
    redistribute
      (List.zipWith (fun b c => b ++ c) (col_splits (shuffled.length / k) shuffled) cands)
      ((col_splits (shuffled.length / k) shuffled).getLastD [])
  else
    List.zipWith (fun b c => b ++ c) (col_splits (shuffled.length / k) shuffled) cands

/-- The shard list of `load_data` lines 140-146: shard `i` pairs row block
`i` of `np.array_split(train_dataset, k)` with column set
`new_col_splits[i]` and with the label slice
`y_train.loc[trainset_splits[i].index]`, modelled as an index lookup into
the training label series (a training row is an `(index, label)` pair, and
the label series is the association list of those pairs). -/
def data_cut_shards (shuffled : List Nat) (k : Nat) (cands : List (List Nat))
    (train_rows : List (Nat × Nat)) :
    List (List (Nat × Nat) × List Nat × List (Option Nat)) :=
  (List.range k).map (fun i =>
    ((array_split k train_rows).getD i [],
     (final_col_splits shuffled k cands).getD i [],
     ((array_split k train_rows).getD i []).map (fun r => train_rows.lookup r.1)))

/-- Feasibility of the `np.random.choice` draws of `load_data` line 132:
for each block of `col_splits`, numpy with `replace=False` can draw
`int(sp_size/2)` values from `np.setdiff1d(all_cols, split)` (the sorted
distinct values of `all_cols` not in `split`) only when the sample size does
not exceed the population; otherwise it raises `ValueError` (an empty
population is accepted exactly when the sample size is 0). -/
def choice_sizes_ok (shuffled : List Nat) (k : Nat) : Bool :=
  (col_splits (shuffled.length / k) shuffled).all (fun b =>
    shuffled.length / k / 2 ≤
      (np_unique (shuffled.filter (fun c => !(b.contains c)))).length)

/-- The `data_cut` branch of `load_data` lines 126-146 with its error
behaviour: when `sp_size = int(len(all_cols)/data_cut)` is zero,
`range(0, len(all_cols), 0)` raises `ValueError` (and `data_cut = 0` raises
`ZeroDivisionError` even earlier; both are the first error case here); and
when some block's candidate draw requests more columns than its complement
holds — notably `data_cut = 1` with at least two retained columns, where the
complement is empty and `int(sp_size/2) ≥ 1` — `np.random.choice` raises
`ValueError` (the second error case). -/
def data_cut_result (shuffled : List Nat) (k : Nat) (cands : List (List Nat))
    (train_rows : List (Nat × Nat)) :
    Except String (List (List (Nat × Nat) × List Nat × List (Option Nat))) :=
  if shuffled.length / k = 0 then Except.error "range() arg 3 must not be zero"
  else if choice_sizes_ok shuffled k then
    Except.ok (data_cut_shards shuffled k cands train_rows)
  else Except.error "Cannot take a larger sample than population when replace is False"

lemma ceil_div_succ (L s : Nat) (hL : 1 ≤ L) (hs : 1 ≤ s) :
    (L - s + s - 1) / s + 1 = (L + s - 1) / s := by
  rcases le_or_lt L s with hle | hlt
  · have h0 : L - s = 0 := by omega
    have h1 : (0 + s - 1) / s = 0 := Nat.div_eq_of_lt (by omega)
    have h2 : (L + s - 1) / s = 1 := Nat.div_eq_of_lt_le (by omega) (by omega)
    rw [h0, h1, h2]
  · have h1 : L - s + s - 1 = L - 1 := by omega
    have h2 : L + s - 1 = L - 1 + s := by omega
    rw [h1, h2, Nat.add_div_right _ (by omega)]

lemma chunksGo_length (s : Nat) (hs : 1 ≤ s) :
    ∀ (fuel : Nat) (l : List Nat), l.length ≤ fuel →
      (chunksGo s fuel l).length = (l.length + s - 1) / s := by
  intro fuel
  induction fuel with
  | zero =>
      intro l hl
      have hnil : l = [] := List.eq_nil_of_length_eq_zero (Nat.le_zero.mp hl)
      subst hnil
      show 0 = (0 + s - 1) / s
      rw [Nat.div_eq_of_lt (by omega)]
  | succ n ih =>
      intro l hl
      match l with
      | [] =>
          show 0 = (0 + s - 1) / s
          rw [Nat.div_eq_of_lt (by omega)]
      | x :: xs =>
          show (List.take s (x :: xs) :: chunksGo s n (List.drop s (x :: xs))).length =
            ((x :: xs).length + s - 1) / s
          have hdl : (List.drop s (x :: xs)).length = (x :: xs).length - s :=
            List.length_drop _ _
          have hrec := ih (List.drop s (x :: xs)) (by rw [hdl]; simp at hl ⊢; omega)
          rw [List.length_cons, hrec, hdl]
          exact ceil_div_succ (x :: xs).length s (by simp) hs

lemma col_splits_length (s : Nat) (cols : List Nat) (hs : 1 ≤ s) :
    (col_splits s cols).length = (cols.length + s - 1) / s :=
  chunksGo_length s hs cols.length cols (le_refl _)

lemma k_le_col_splits_length (cols : List Nat) (k : Nat) (hk : 1 ≤ k)
    (hkL : k ≤ cols.length) :
    k ≤ (col_splits (cols.length / k) cols).length := by
  have hs : 1 ≤ cols.length / k := (Nat.one_le_div_iff (by omega)).mpr hkL
  rw [col_splits_length _ _ hs]
  have hks : k * (cols.length / k) ≤ cols.length := by
    calc k * (cols.length / k) = cols.length / k * k := Nat.mul_comm _ _
      _ ≤ cols.length := Nat.div_mul_le_self _ _
  calc k ≤ cols.length / (cols.length / k) :=
        (Nat.le_div_iff_mul_le (by omega)).mpr hks
    _ ≤ (cols.length + cols.length / k - 1) / (cols.length / k) :=
        Nat.div_le_div_right (by omega)

lemma array_split_length {α : Type} (k : Nat) (l : List α) :
    (array_split k l).length = k := by
  induction k generalizing l with
  | zero => rfl
  | succ n ih => simp [array_split, ih]

lemma array_split_flatten {α : Type} (k : Nat) (hk : 1 ≤ k) (l : List α) :
    (array_split k l).flatten = l := by
  induction k generalizing l with
  | zero => omega
  | succ n ih =>
      show (l.take ((l.length + n) / (n + 1)) ::
        array_split n (l.drop ((l.length + n) / (n + 1)))).flatten = l
      rcases Nat.eq_zero_or_pos n with rfl | hn
      · show (l.take ((l.length + 0) / 1) :: array_split 0 _).flatten = l
        simp [array_split]
      · rw [List.flatten_cons, ih hn, List.take_append_drop]

lemma mem_insort (a x : Nat) (l : List Nat) : a ∈ insort x l ↔ a = x ∨ a ∈ l := by
  induction l with
  | nil => simp [insort]
  | cons y ys ih =>
      unfold insort
      by_cases h : x ≤ y
      · simp [h]
      · simp only [if_neg h, List.mem_cons, ih]
        tauto

lemma mem_np_sort (a : Nat) (l : List Nat) : a ∈ np_sort l ↔ a ∈ l := by
  induction l with
  | nil => simp [np_sort]
  | cons x xs ih =>
      show a ∈ insort x (np_sort xs) ↔ a ∈ x :: xs
      rw [mem_insort, ih, List.mem_cons]

lemma mem_np_unique (a : Nat) (l : List Nat) : a ∈ np_unique l ↔ a ∈ l :=
  (List.mem_dedup).trans (mem_np_sort a l)

lemma insort_perm (x : Nat) (l : List Nat) : (insort x l).Perm (x :: l) := by
  induction l with
  | nil => exact List.Perm.refl _
  | cons y ys ih =>
      unfold insort
      by_cases h : x ≤ y
      · rw [if_pos h]
      · rw [if_neg h]
        exact (List.Perm.cons y ih).trans (List.Perm.swap x y ys)

lemma np_sort_perm (l : List Nat) : (np_sort l).Perm l := by
  induction l with
  | nil => exact List.Perm.refl _
  | cons x xs ih =>
      show (insort x (np_sort xs)).Perm (x :: xs)
      exact (insort_perm x (np_sort xs)).trans (List.Perm.cons x ih)

lemma np_unique_length_of_nodup {l : List Nat} (h : l.Nodup) :
    (np_unique l).length = l.length := by
  have hp := np_sort_perm l
  have hnd : (np_sort l).Nodup := hp.nodup_iff.mpr h
  unfold np_unique
  rw [List.dedup_eq_self.mpr hnd]
  exact hp.length_eq

lemma chunksGo_mem_length (s : Nat) :
    ∀ (fuel : Nat) (l : List Nat), ∀ b ∈ chunksGo s fuel l, b.length ≤ s := by
  intro fuel
  induction fuel with
  | zero => intro l b hb; cases hb
  | succ n ih =>
      intro l b hb
      cases l with
      | nil => cases hb
      | cons x xs =>
          simp only [chunksGo] at hb
          rcases List.mem_cons.mp hb with rfl | hb2
          · rw [List.length_take]; omega
          · exact ih _ b hb2

lemma col_splits_mem_length (s : Nat) (cols : List Nat) :
    ∀ b ∈ col_splits s cols, b.length ≤ s :=
  chunksGo_mem_length s cols.length cols

lemma filter_contains_split (b l : List Nat) :
    (l.filter (fun c => b.contains c)).length +
      (l.filter (fun c => !(b.contains c))).length = l.length := by
  induction l with
  | nil => rfl
  | cons x xs ih =>
      simp only [List.filter_cons]
      by_cases h : b.contains x = true
      · have hn : ¬ ((!(b.contains x)) = true) := by rw [h]; decide
        rw [if_pos h, if_neg hn]
        simp only [List.length_cons]
        omega
      · have h2 : b.contains x = false := by
          revert h; cases b.contains x <;> simp
        have hn : (!(b.contains x)) = true := by rw [h2]; rfl
        rw [if_neg h, if_pos hn]
        simp only [List.length_cons]
        omega

lemma choice_sizes_ok_of_two_le (shuffled : List Nat) (k : Nat)
    (hnd : shuffled.Nodup) (hk : 2 ≤ k) (hkL : k ≤ shuffled.length) :
    choice_sizes_ok shuffled k = true := by
  unfold choice_sizes_ok
  rw [List.all_eq_true]
  intro b hb
  simp only [decide_eq_true_eq]
  have hbs : b.length ≤ shuffled.length / k :=
    col_splits_mem_length _ _ b hb
  have hfnd : (shuffled.filter (fun c => !(b.contains c))).Nodup := hnd.filter _
  rw [np_unique_length_of_nodup hfnd]
  have hsplit := filter_contains_split b shuffled
  have hsub : (shuffled.filter (fun c => b.contains c)).length ≤ b.length := by
    apply List.Subperm.length_le
    apply List.Nodup.subperm (hnd.filter _)
    intro c hc
    exact List.elem_iff.mp (List.mem_filter.mp hc).2
  have hss : shuffled.length / k ≤ shuffled.length / 2 :=
    Nat.div_le_div_left hk (by omega)
  omega

lemma range_map_getD {α : Type} (L : List α) (d : α) :
    (List.range L.length).map (fun i => L.getD i d) = L := by
  apply List.ext_getElem
  · simp
  · intro i h1 h2
    rw [List.getElem_map, List.getElem_range, List.getD_eq_getElem _ _ h2]

lemma getD_zipWith_append (blocks cands : List (List Nat)) (i : Nat)
    (h1 : i < blocks.length) (h2 : i < cands.length) :
    (List.zipWith (fun b c => b ++ c) blocks cands).getD i [] =
      blocks.getD i [] ++ cands.getD i [] := by
  have hlen : i < (List.zipWith (fun b c => b ++ c) blocks cands).length := by
    rw [List.length_zipWith]; omega
  rw [List.getD_eq_getElem _ _ hlen, List.getD_eq_getElem _ _ h1,
    List.getD_eq_getElem _ _ h2, List.getElem_zipWith]

lemma redistribute_getD (ncs : List (List Nat)) (lastB : List Nat) (i : Nat)
    (h : i + 1 < ncs.length) :
    (redistribute ncs lastB).getD i [] =
      if i < lastB.length then np_unique (ncs.getD i [] ++ [lastB.getD i 0])
      else ncs.getD i [] := by
  unfold redistribute
  have hd : i < (((List.range ncs.length).map (fun i =>
      if i < lastB.length then np_unique (ncs.getD i [] ++ [lastB.getD i 0])
      else ncs.getD i [])).dropLast).length := by
    rw [List.length_dropLast, List.length_map, List.length_range]; omega
  rw [List.getD_eq_getElem _ _ hd, List.getElem_dropLast, List.getElem_map,
    List.getElem_range]

lemma final_col_splits_superset (shuffled : List Nat) (k : Nat)
    (cands : List (List Nat)) (hk : 1 ≤ k) (hkL : k ≤ shuffled.length)
    (hcands : cands.length = (col_splits (shuffled.length / k) shuffled).length)
    (i : Nat) (hi : i < k) :
    ∀ c ∈ (col_splits (shuffled.length / k) shuffled).getD i [],
      c ∈ (final_col_splits shuffled k cands).getD i [] := by
  intro c hc
  have hq : k ≤ (col_splits (shuffled.length / k) shuffled).length :=
    k_le_col_splits_length shuffled k hk hkL
  have hmem : c ∈ (List.zipWith (fun b c => b ++ c)
      (col_splits (shuffled.length / k) shuffled) cands).getD i [] := by
    rw [getD_zipWith_append _ _ _ (by omega) (by omega)]
    exact List.mem_append_left _ hc
  unfold final_col_splits
  by_cases hb : k < (col_splits (shuffled.length / k) shuffled).length
  · rw [if_pos hb]
    have hzip : i + 1 < (List.zipWith (fun b c => b ++ c)
        (col_splits (shuffled.length / k) shuffled) cands).length := by
      rw [List.length_zipWith]; omega
    rw [redistribute_getD _ _ _ hzip]
    by_cases hlast :
        i < ((col_splits (shuffled.length / k) shuffled).getLastD []).length
    · rw [if_pos hlast]
      exact (mem_np_unique _ _).mpr (List.mem_append_left _ hmem)
    · rw [if_neg hlast]
      exact hmem
  · rw [if_neg hb]
    exact hmem

lemma lookup_eq_of_nodup_keys (rows : List (Nat × Nat))
    (h : (rows.map Prod.fst).Nodup) {a b : Nat} (hm : (a, b) ∈ rows) :
    rows.lookup a = some b := by
  induction rows with
  | nil => cases hm
  | cons p rs ih =>
      obtain ⟨x, y⟩ := p
      rw [List.map_cons, List.nodup_cons] at h
      rcases List.mem_cons.mp hm with heq | htail
      · obtain ⟨rfl, rfl⟩ := Prod.mk.injEq .. ▸ heq
        simp [List.lookup_cons]
      · have hax : a ≠ x := by
          rintro rfl
          exact h.1 (List.mem_map.mpr ⟨(a, b), htail, rfl⟩)
        rw [List.lookup_cons]
        simp only [beq_eq_false_iff_ne.mpr hax]
        exact ih h.2 htail

lemma data_cut_shards_rows (shuffled : List Nat) (k : Nat) (cands : List (List Nat))
    (train_rows : List (Nat × Nat)) :
    (data_cut_shards shuffled k cands train_rows).map (fun sh => sh.1) =
      (List.range k).map (fun i => (array_split k train_rows).getD i []) := by
  unfold data_cut_shards
  rw [List.map_map]
  exact List.map_congr_left (fun i _ => rfl)

lemma data_cut_shards_getD (shuffled : List Nat) (k : Nat) (cands : List (List Nat))
    (train_rows : List (Nat × Nat)) (i : Nat) (hi : i < k) :
    (data_cut_shards shuffled k cands train_rows).getD i ([], [], []) =
      ((array_split k train_rows).getD i [],
       (final_col_splits shuffled k cands).getD i [],
       ((array_split k train_rows).getD i []).map (fun r => train_rows.lookup r.1)) := by
  unfold data_cut_shards
  have hl : i < ((List.range k).map (fun i =>
      ((array_split k train_rows).getD i [],
       (final_col_splits shuffled k cands).getD i [],
       ((array_split k train_rows).getD i []).map
         (fun r => train_rows.lookup r.1)))).length := by
    rw [List.length_map, List.length_range]; omega
  rw [List.getD_eq_getElem _ _ hl, List.getElem_map, List.getElem_range]

/-- C3 counterexample: the claim's domain includes `data_cut = 1`, but with
two retained columns `sp_size = 2`, the single base block is all columns, so
`np.setdiff1d(all_cols, split)` at line 132 is empty while
`int(sp_size/2) = 1`: `np.random.choice` raises `ValueError` and `load_data`
never returns a shard list (in particular not one with 1 entry). -/
theorem C3_k1_choice_counterexample :
    data_cut_result [0, 1] 1 [[]] [] =
      Except.error "Cannot take a larger sample than population when replace is False" ∧
    ¬ (data_cut_result [0, 1] 1 [[]] [] =
        Except.ok (data_cut_shards [0, 1] 1 [[]] [])) := by
  have h1 : data_cut_result [0, 1] 1 [[]] [] =
      Except.error "Cannot take a larger sample than population when replace is False" :=
    rfl
  refine ⟨h1, ?_⟩
  intro h
  rw [h1] at h
  exact Except.noConfusion h

/-- C3 (amended): for every invocation with `data_cut = k` where
`2 ≤ k ≤ number of retained columns` (column names distinct), the shard
list has exactly `k` entries, the concatenation of the shards' row blocks
is exactly the training partition (so their row sets are the training rows,
with no row in two shards — the blocks are pairwise disjoint whenever the
training rows are distinct), and each shard's column set contains its base
column block.  For `k = 1` with at least two retained columns, `load_data`
instead raises `ValueError`: `np.random.choice` cannot draw
`int(sp_size/2) ≥ 1` columns from the empty complement of the single block.
`shuffled` is the column list after `np.random.shuffle`, `cands` the
`np.random.choice` candidate draws (one list per base block). -/
theorem C3_data_cut_shards (shuffled : List Nat) (k : Nat) (cands : List (List Nat))
    (train_rows : List (Nat × Nat)) (hnd : shuffled.Nodup) (hk : 2 ≤ k)
    (hkL : k ≤ shuffled.length)
    (hcands : cands.length = (col_splits (shuffled.length / k) shuffled).length) :
    data_cut_result shuffled k cands train_rows =
      Except.ok (data_cut_shards shuffled k cands train_rows) ∧
    (data_cut_shards shuffled k cands train_rows).length = k ∧
    ((data_cut_shards shuffled k cands train_rows).map (fun sh => sh.1)).flatten =
      train_rows ∧
    (train_rows.Nodup →
      ((data_cut_shards shuffled k cands train_rows).map (fun sh => sh.1)).Pairwise
        List.Disjoint) ∧
    (∀ i, i < k → ∀ c ∈ (col_splits (shuffled.length / k) shuffled).getD i [],
      c ∈ ((data_cut_shards shuffled k cands train_rows).getD i ([], [], [])).2.1) := by
  have hs : shuffled.length / k ≠ 0 := by
    have := (Nat.one_le_div_iff (show 0 < k by omega)).mpr hkL
    omega
  have hflat : ((data_cut_shards shuffled k cands train_rows).map
      (fun sh => sh.1)).flatten = train_rows := by
    rw [data_cut_shards_rows]
    calc ((List.range k).map (fun i => (array_split k train_rows).getD i [])).flatten
        = ((List.range (array_split k train_rows).length).map
            (fun i => (array_split k train_rows).getD i [])).flatten := by
          rw [array_split_length]
      _ = (array_split k train_rows).flatten := by rw [range_map_getD]
      _ = train_rows := array_split_flatten k (by omega) _
  refine ⟨?_, ?_, hflat, ?_, ?_⟩
  · unfold data_cut_result
    rw [if_neg hs, if_pos (choice_sizes_ok_of_two_le shuffled k hnd hk hkL)]
  · unfold data_cut_shards
    rw [List.length_map, List.length_range]
  · intro hnd_rows
    have : (((data_cut_shards shuffled k cands train_rows).map
        (fun sh => sh.1)).flatten).Nodup := by rw [hflat]; exact hnd_rows
    exact (List.nodup_flatten.mp this).2
  · intro i hi c hc
    rw [data_cut_shards_getD _ _ _ _ _ hi]
    exact final_col_splits_superset shuffled k cands (by omega) hkL hcands i hi c hc

/-- Witness for C3: 5 columns cut into `k = 2` shards over a 3-row training
set (this instance exercises the leftover-block redistribution: `np.split`
yields 3 blocks for `sp_size = 2`). -/
theorem C3_data_cut_shards_witness :
    data_cut_result [0, 1, 2, 3, 4] 2 [[3], [0], [1]] [(0, 1), (1, 0), (2, 1)] =
      Except.ok (data_cut_shards [0, 1, 2, 3, 4] 2 [[3], [0], [1]]
        [(0, 1), (1, 0), (2, 1)]) ∧
    (data_cut_shards [0, 1, 2, 3, 4] 2 [[3], [0], [1]]
      [(0, 1), (1, 0), (2, 1)]).length = 2 ∧
    ((data_cut_shards [0, 1, 2, 3, 4] 2 [[3], [0], [1]]
      [(0, 1), (1, 0), (2, 1)]).map (fun sh => sh.1)).flatten =
      [(0, 1), (1, 0), (2, 1)] ∧
    (([(0, 1), (1, 0), (2, 1)] : List (Nat × Nat)).Nodup →
      ((data_cut_shards [0, 1, 2, 3, 4] 2 [[3], [0], [1]]
        [(0, 1), (1, 0), (2, 1)]).map (fun sh => sh.1)).Pairwise List.Disjoint) ∧
    (∀ i, i < 2 → ∀ c ∈ (col_splits (([0, 1, 2, 3, 4] : List Nat).length / 2)
        [0, 1, 2, 3, 4]).getD i [],
      c ∈ ((data_cut_shards [0, 1, 2, 3, 4] 2 [[3], [0], [1]]
        [(0, 1), (1, 0), (2, 1)]).getD i ([], [], [])).2.1) :=
  C3_data_cut_shards [0, 1, 2, 3, 4] 2 [[3], [0], [1]] [(0, 1), (1, 0), (2, 1)]
    (by decide) (by decide) (by decide) (by decide)

/-- C9: when `data_cut = k` exceeds the number of retained columns,
`sp_size = int(len(all_cols)/k)` is 0 and `range(0, len(all_cols), 0)`
raises `ValueError`: `load_data` errors instead of returning `k` shards. -/
theorem C9_data_cut_error (shuffled : List Nat) (k : Nat) (cands : List (List Nat))
    (train_rows : List (Nat × Nat)) (h : shuffled.length < k) :
    data_cut_result shuffled k cands train_rows =
      Except.error "range() arg 3 must not be zero" := by
  unfold data_cut_result
  rw [if_pos (Nat.div_eq_of_lt h)]

/-- Witness for C9: 2 retained columns, `data_cut = 3`. -/
theorem C9_data_cut_error_witness :
    data_cut_result [0, 1] 3 [] [] =
      Except.error "range() arg 3 must not be zero" :=
  C9_data_cut_error [0, 1] 3 [] [] (by decide)

/-- C10: with `data_cut = k`, every returned shard pairs its feature rows
with exactly the training labels selected by those rows' indices
(`y_train.loc[trainset_splits[i].index]`): when the training index is
duplicate-free, the label slice of each shard is the label component of its
own rows, in order — feature/label row identity is preserved per shard. -/
theorem C10_shard_label_alignment (shuffled : List Nat) (k : Nat)
    (cands : List (List Nat)) (train_rows : List (Nat × Nat))
    (hnd : (train_rows.map Prod.fst).Nodup) :
    ∀ sh ∈ data_cut_shards shuffled k cands train_rows,
      sh.2.2 = sh.1.map (fun r => some r.2) := by
  intro sh hsh
  unfold data_cut_shards at hsh
  obtain ⟨i, hi, rfl⟩ := List.mem_map.mp hsh
  have hik : i < k := List.mem_range.mp hi
  show ((array_split k train_rows).getD i []).map (fun r => train_rows.lookup r.1) =
    ((array_split k train_rows).getD i []).map (fun r => some r.2)
  apply List.map_congr_left
  intro r hr
  have hrmem : r ∈ train_rows := by
    have hlen : i < (array_split k train_rows).length := by
      rw [array_split_length]; omega
    have hpiece : (array_split k train_rows).getD i [] ∈ array_split k train_rows := by
      rw [List.getD_eq_getElem _ _ hlen]
      exact List.getElem_mem _
    have hfl : r ∈ (array_split k train_rows).flatten :=
      List.mem_flatten.mpr ⟨_, hpiece, hr⟩
    rwa [array_split_flatten k (by omega) _] at hfl
  obtain ⟨a, b⟩ := r
  exact lookup_eq_of_nodup_keys train_rows hnd hrmem

/-- Witness for C10: the first shard of a concrete cut with distinct
training indices. -/
theorem C10_shard_label_alignment_witness :
    ((data_cut_shards [0, 1, 2, 3] 2 [[], []]
        [(0, 5), (1, 6), (2, 7)]).getD 0 ([], [], [])).2.2 =
      ((data_cut_shards [0, 1, 2, 3] 2 [[], []]
        [(0, 5), (1, 6), (2, 7)]).getD 0 ([], [], [])).1.map (fun r => some r.2) :=
  C10_shard_label_alignment [0, 1, 2, 3] 2 [[], []] [(0, 5), (1, 6), (2, 7)]
    (by decide) _ (by decide)

/-- The classified column lists returned by `load_data` together with the
retained attribute names. -/
structure Roles where
  num_cols : List String
  cat_cols : List String
  bin_cols : List String
  retained : List String
deriving DecidableEq

/-- The two data sources of `load_data`.
* `localDir` (lines 31-50): feature column names (already lowercased) and
  the contents of the optional `numerical_feature.txt` / `binary_feature.txt`
  sidecar files;
* `openml` (lines 52-84): per-attribute name, categorical-indicator flag and
  column values (values as `Nat`; only their number of distinct values
  matters), plus the dataset-config shape: `none` = no entry for this
  dataset, `some none` = entry without a `bin` field, `some (some b)` =
  entry with `bin` list `b`. -/
inductive Source where
  | localDir (all_cols num_file bin_file : List String)
  | openml (cols : List (String × Bool × List Nat)) (cfg : Option (Option (List String)))

/-- `drop_cols` of `load_data` line 73: columns with at most one distinct
value (`X[col].nunique() <= 1`). -/
def ext_drop_cols (cols : List (String × Bool × List Nat)) : List String :=
  (cols.filter (fun c => c.2.2.dedup.length ≤ 1)).map (fun c => c.1)

/-- `cat_cols` of `load_data` line 77 (before binary extraction):
categorical-indicator columns not dropped. -/
def ext_cat_cols (cols : List (String × Bool × List Nat)) : List String :=
  ((cols.filter (fun c => c.2.1)).map (fun c => c.1)).filter
    (fun c => !((ext_drop_cols cols).contains c))

/-- `num_cols` of `load_data` line 78: non-categorical columns not dropped.
-/
def ext_num_cols (cols : List (String × Bool × List Nat)) : List String :=
  ((cols.filter (fun c => !c.2.1)).map (fun c => c.1)).filter
    (fun c => !((ext_drop_cols cols).contains c))

/-- `all_cols` of `load_data` line 79: attribute names not dropped. -/
def ext_retained (cols : List (String × Bool × List Nat)) : List String :=
  (cols.map (fun c => c.1)).filter (fun c => !((ext_drop_cols cols).contains c))

/-- The role computation of `load_data`: lines 37-50 in local mode (sidecar
lists taken as-is, categoricals are the rest) and lines 73-84 in external
mode (constant-column drop, indicator split, `bin` extraction from the
config, then `cat_cols` minus `bin_cols`).  `none` models the
`UnboundLocalError` of the `some none` config shape (see `bin_cols_ext`). -/
def roles : Source → Option Roles
  | .localDir all_cols num_file bin_file =>
      some ⟨num_file,
        all_cols.filter (fun c => !(num_file.contains c) && !(bin_file.contains c)),
        bin_file, all_cols⟩
  | .openml cols cfg =>
      match bin_cols_ext cfg (ext_cat_cols cols) with
      | none => none
      | some bin_cols =>
          some ⟨ext_num_cols cols,
            (ext_cat_cols cols).filter (fun c => !(bin_cols.contains c)),
            bin_cols, ext_retained cols⟩

/-- Validity hypotheses under which the role lists are well-behaved: in
local mode the sidecar lists must name actual columns and must not overlap
(nothing in the code checks this); in external mode the attribute names
must be distinct. -/
def ValidSource : Source → Prop
  | .localDir all_cols num_file bin_file =>
      (∀ c ∈ num_file, c ∈ all_cols) ∧ (∀ c ∈ bin_file, c ∈ all_cols) ∧
        (∀ c ∈ num_file, c ∉ bin_file)
  | .openml cols _ => (cols.map (fun c => c.1)).Nodup

lemma mem_contains_true {l : List String} {c : String} (h : c ∈ l) :
    l.contains c = true := List.elem_iff.mpr h

lemma contains_false_not_mem {l : List String} {c : String}
    (h : (l.contains c) = false) : c ∉ l := by
  intro hc
  rw [mem_contains_true hc] at h
  cases h

lemma flag_unique (cols : List (String × Bool × List Nat))
    (h : (cols.map (fun c => c.1)).Nodup) {p q : String × Bool × List Nat}
    (hp : p ∈ cols) (hq : q ∈ cols) (hpq : p.1 = q.1) : p = q := by
  induction cols with
  | nil => cases hp
  | cons x xs ih =>
      rw [List.map_cons, List.nodup_cons] at h
      rcases List.mem_cons.mp hp with rfl | hp2
      · rcases List.mem_cons.mp hq with rfl | hq2
        · rfl
        · exact absurd (List.mem_map.mpr ⟨q, hq2, hpq.symm⟩) h.1
      · rcases List.mem_cons.mp hq with rfl | hq2
        · exact absurd (List.mem_map.mpr ⟨p, hp2, hpq⟩) h.1
        · exact ih h.2 hp2 hq2

lemma ext_num_not_cat (cols : List (String × Bool × List Nat))
    (h : (cols.map (fun c => c.1)).Nodup) :
    ∀ c ∈ ext_num_cols cols, c ∉ ext_cat_cols cols := by
  intro c hc hcat
  obtain ⟨hc1, _⟩ := List.mem_filter.mp hc
  obtain ⟨p, hp, hpc⟩ := List.mem_map.mp hc1
  obtain ⟨hpmem, hpflag⟩ := List.mem_filter.mp hp
  obtain ⟨hcat1, _⟩ := List.mem_filter.mp hcat
  obtain ⟨q, hq, hqc⟩ := List.mem_map.mp hcat1
  obtain ⟨hqmem, hqflag⟩ := List.mem_filter.mp hq
  have hpq : p = q := flag_unique cols h hpmem hqmem (by rw [hpc, hqc])
  rw [hpq] at hpflag
  rw [hqflag] at hpflag
  cases hpflag

lemma ext_cat_subset_retained (cols : List (String × Bool × List Nat)) :
    ∀ c ∈ ext_cat_cols cols, c ∈ ext_retained cols := by
  intro c hc
  obtain ⟨hc1, hdrop⟩ := List.mem_filter.mp hc
  obtain ⟨p, hp, hpc⟩ := List.mem_map.mp hc1
  exact List.mem_filter.mpr
    ⟨List.mem_map.mpr ⟨p, List.mem_of_mem_filter hp, hpc⟩, hdrop⟩

lemma ext_num_subset_retained (cols : List (String × Bool × List Nat)) :
    ∀ c ∈ ext_num_cols cols, c ∈ ext_retained cols := by
  intro c hc
  obtain ⟨hc1, hdrop⟩ := List.mem_filter.mp hc
  obtain ⟨p, hp, hpc⟩ := List.mem_map.mp hc1
  exact List.mem_filter.mpr
    ⟨List.mem_map.mpr ⟨p, List.mem_of_mem_filter hp, hpc⟩, hdrop⟩

lemma bin_cols_ext_subset (cfg : Option (Option (List String)))
    (cat0 bin_cols : List String) (h : bin_cols_ext cfg cat0 = some bin_cols) :
    ∀ c ∈ bin_cols, c ∈ cat0 := by
  match cfg with
  | some (some b) =>
      simp only [bin_cols_ext, Option.some.injEq] at h
      intro c hc
      rw [← h] at hc
      exact List.mem_of_mem_filter hc
  | some none => cases h
  | none =>
      simp only [bin_cols_ext, Option.some.injEq] at h
      intro c hc
      rw [← h] at hc
      cases hc

/-- C4 counterexample: in local mode nothing prevents the sidecar files from
naming the same column as both numeric and binary, in which case the role
lists are not pairwise disjoint (the claim quantifies over ALL inputs). -/
theorem C4_roles_counterexample :
    roles (Source.localDir ["a"] ["a"] ["a"]) =
      some ⟨["a"], [], ["a"], ["a"]⟩ ∧
    ¬ (∀ c ∈ (["a"] : List String), c ∉ (["a"] : List String)) := by
  refine ⟨by decide, ?_⟩
  intro h
  exact h "a" (by decide) (by decide)

/-- C4 (amended): whenever the role computation returns (external mode with
distinct attribute names; local mode additionally requires — as the code
does not check it — that the sidecar numeric/binary lists name actual
columns and do not overlap), the three role lists are pairwise disjoint and
their union is contained in the retained attribute list. -/
theorem C4_roles_disjoint (s : Source) (r : Roles) (hv : ValidSource s)
    (hr : roles s = some r) :
    (∀ c ∈ r.num_cols, c ∉ r.cat_cols) ∧
    (∀ c ∈ r.num_cols, c ∉ r.bin_cols) ∧
    (∀ c ∈ r.cat_cols, c ∉ r.bin_cols) ∧
    (∀ c, c ∈ r.num_cols ∨ c ∈ r.cat_cols ∨ c ∈ r.bin_cols → c ∈ r.retained) := by
  match s with
  | .localDir all_cols num_file bin_file =>
      obtain ⟨hnum, hbin, hdisj⟩ := hv
      simp only [roles, Option.some.injEq] at hr
      subst hr
      refine ⟨?_, ?_, ?_, ?_⟩
      · intro c hc hcat
        obtain ⟨_, hflt⟩ := List.mem_filter.mp hcat
        rw [Bool.and_eq_true, Bool.not_eq_true', Bool.not_eq_true'] at hflt
        exact contains_false_not_mem hflt.1 hc
      · exact hdisj
      · intro c hc hbin2
        obtain ⟨_, hflt⟩ := List.mem_filter.mp hc
        rw [Bool.and_eq_true, Bool.not_eq_true', Bool.not_eq_true'] at hflt
        exact contains_false_not_mem hflt.2 hbin2
      · intro c hc
        rcases hc with hc | hc | hc
        · exact hnum c hc
        · exact (List.mem_filter.mp hc).1
        · exact hbin c hc
  | .openml cols cfg =>
      have hnd : (cols.map (fun c => c.1)).Nodup := hv
      simp only [roles] at hr
      match hb : bin_cols_ext cfg (ext_cat_cols cols) with
      | none => rw [hb] at hr; cases hr
      | some bin_cols =>
          rw [hb] at hr
          simp only [Option.some.injEq] at hr
          subst hr
          have hbin_cat : ∀ c ∈ bin_cols, c ∈ ext_cat_cols cols :=
            bin_cols_ext_subset cfg _ _ hb
          refine ⟨?_, ?_, ?_, ?_⟩
          · intro c hc hcat
            exact ext_num_not_cat cols hnd c hc (List.mem_of_mem_filter hcat)
          · intro c hc hbin2
            exact ext_num_not_cat cols hnd c hc (hbin_cat c hbin2)
          · intro c hc hbin2
            obtain ⟨_, hflt⟩ := List.mem_filter.mp hc
            rw [Bool.not_eq_true'] at hflt
            exact contains_false_not_mem hflt hbin2
          · intro c hc
            rcases hc with hc | hc | hc
            · exact ext_num_subset_retained cols c hc
            · exact ext_cat_subset_retained cols c (List.mem_of_mem_filter hc)
            · exact ext_cat_subset_retained cols c (hbin_cat c hc)

/-- Witness for C4 (amended), external mode: three attributes, one constant
(dropped), one categorical promoted to binary by the config. -/
theorem C4_roles_disjoint_witness :
    (∀ c ∈ (Roles.num_cols ⟨["n1"], ["c1"], ["b1"], ["n1", "c1", "b1"]⟩),
        c ∉ (Roles.cat_cols ⟨["n1"], ["c1"], ["b1"], ["n1", "c1", "b1"]⟩)) ∧
    (∀ c ∈ (Roles.num_cols ⟨["n1"], ["c1"], ["b1"], ["n1", "c1", "b1"]⟩),
        c ∉ (Roles.bin_cols ⟨["n1"], ["c1"], ["b1"], ["n1", "c1", "b1"]⟩)) ∧
    (∀ c ∈ (Roles.cat_cols ⟨["n1"], ["c1"], ["b1"], ["n1", "c1", "b1"]⟩),
        c ∉ (Roles.bin_cols ⟨["n1"], ["c1"], ["b1"], ["n1", "c1", "b1"]⟩)) ∧
    (∀ c, c ∈ (Roles.num_cols ⟨["n1"], ["c1"], ["b1"], ["n1", "c1", "b1"]⟩) ∨
        c ∈ (Roles.cat_cols ⟨["n1"], ["c1"], ["b1"], ["n1", "c1", "b1"]⟩) ∨
        c ∈ (Roles.bin_cols ⟨["n1"], ["c1"], ["b1"], ["n1", "c1", "b1"]⟩) →
        c ∈ (Roles.retained ⟨["n1"], ["c1"], ["b1"], ["n1", "c1", "b1"]⟩)) :=
  C4_roles_disjoint
    (Source.openml
      [("n1", false, [0, 1]), ("c1", true, [0, 1]), ("b1", true, [0, 1]),
       ("d1", true, [0, 0])]
      (some (some ["b1"])))
    ⟨["n1"], ["c1"], ["b1"], ["n1", "c1", "b1"]⟩
    (by unfold ValidSource; decide) (by decide)

end Transtab
